import Mathlib

/-!
Verification development for the TVM (time-value-of-money) numeric engine of
the financial-calculator repository.  The JavaScript source is embedded
shallowly over exact rationals: JS doubles become `ℚ`, results that JS reports
as `NaN`/non-finite become `Option.none`, and `Math.pow` is embedded on the
integer exponents that the engine's period counts exercise.
-/

/-- Math.pow of the source restricted to integer exponents (period counts),
the domain this development exercises; a non-integer exponent lies outside the
exact-rational embedding and is mapped to 0. -/
def powI (b e : ℚ) : ℚ :=
  if e.den = 1 then b ^ e.num else 0

/-- annuityFactor from the source: returns n when the rate is below the 1e-10
threshold, otherwise ((1+i)^n - 1)/i, multiplied by (1+i) in begin mode. -/
def annuityFactor (i n : ℚ) (isBegin : Bool) : ℚ :=
  if |i| < 1 / 10 ^ 10 then n
  else
    let factor := (powI (1 + i) n - 1) / i
    if isBegin then factor * (1 + i) else factor

/-- presentValueFactor from the source: (1+i)^(-n). -/
def presentValueFactor (i n : ℚ) : ℚ :=
  powI (1 + i) (-n)

/-- solveFV from the source: FV = -(PV*(1+i)^N + PMT*annuityFactor). -/
def solveFV (n i pv pmt : ℚ) (isBegin : Bool) : ℚ :=
  -(pv * powI (1 + i) n + pmt * annuityFactor i n isBegin)

/-- solvePV from the source: PV = -(PMT*AF + FV) / (1+i)^N. -/
def solvePV (n i pmt fv : ℚ) (isBegin : Bool) : ℚ :=
  -(pmt * annuityFactor i n isBegin + fv) / powI (1 + i) n

/-- solvePMT from the source: PMT = -(PV*(1+i)^N + FV) / AF, returning NaN
(modelled as none) when the annuity factor is below the 1e-15 threshold. -/
def solvePMT (n i pv fv : ℚ) (isBegin : Bool) : Option ℚ :=
  let af := annuityFactor i n isBegin
  if |af| < 1 / 10 ^ 15 then none
  else some (-(pv * powI (1 + i) n + fv) / af)

/-- getPeriodicRate from the source: r/py when the compounding and payment
frequencies agree, otherwise (1 + r/cy)^(cy/py) - 1. -/
def getPeriodicRate (nominalRate cy py : ℚ) : ℚ :=
  let r := nominalRate / 100
  if cy = py then r / py
  else powI (1 + r / cy) (cy / py) - 1

/-- solveN from the source.  The two transcendental branches (the logarithmic
closed form Math.log(ratio)/Math.log(1+i) and the numeric bisection of
solveNNumeric) are abstracted as the parameters sLog and sNN, both returning
none where JS would produce NaN; the remaining branches are exact.  The
source's pmtAdj binding is dead code and is not reproduced. -/
def solveN (sNN : ℚ → ℚ → ℚ → ℚ → Bool → Option ℚ) (sLog : ℚ → ℚ → Option ℚ)
    (i pv pmt fv : ℚ) (isBegin : Bool) : Option ℚ :=
  if |i| < 1 / 10 ^ 10 then
    if |pmt| < 1 / 10 ^ 15 then none else some (-(pv + fv) / pmt)
  else if |pmt| < 1 / 10 ^ 15 then
    if |pv| < 1 / 10 ^ 15 then none
    else
      let ratioQ := -fv / pv
      if ratioQ ≤ 0 then none else sLog ratioQ i
  else sNN i pv pmt fv isBegin

/-- Bracket state (lo, f(lo), hi, f(hi)) threaded through the bisection
fallbacks of the source. -/
structure BisectBracket where
  lo : ℚ
  fLo : ℚ
  hi : ℚ
  fHi : ℚ

/-- Bisection loop shared verbatim by bisectionSolveI and bisectionIRR in the
source: halve the bracket up to the iteration bound, returning mid early when
the residual drops below 1e-10, and the final midpoint otherwise. -/
def bisectLoop (f : ℚ → ℚ) : ℕ → BisectBracket → ℚ
  | 0, br => (br.lo + br.hi) / 2
  | fuel + 1, br =>
    let mid := (br.lo + br.hi) / 2
    let fMid := f mid
    if |fMid| < 1 / 10 ^ 10 then mid
    else if br.fLo * fMid < 0 then bisectLoop f fuel ⟨br.lo, br.fLo, mid, fMid⟩
    else bisectLoop f fuel ⟨mid, fMid, br.hi, br.fHi⟩

/-- Probe phase of bisectionSolveI: walk the candidate list, and at the first
candidate that lies strictly inside the bracket and gives a sign change
against an endpoint, shrink that endpoint and stop. -/
def adjustBracketI (f : ℚ → ℚ) : List ℚ → BisectBracket → BisectBracket
  | [], br => br
  | t :: rest, br =>
    if t > br.lo ∧ t < br.hi ∧ f t * br.fLo < 0 then ⟨br.lo, br.fLo, t, f t⟩
    else if t > br.lo ∧ t < br.hi ∧ f t * br.fHi < 0 then ⟨t, f t, br.hi, br.fHi⟩
    else adjustBracketI f rest br

/-- Probe candidates of bisectionSolveI: {-0.5, 0, 0.01, 0.1, 0.5, 1, 1.5}. -/
def probeTestsI : List ℚ :=
  [-(1 / 2), 0, 1 / 100, 1 / 10, 1 / 2, 1, 3 / 2]

/-- bisectionSolveI from the source: probe for a sign-changing sub-bracket
when the endpoints do not sign-change, then run the bisection loop. -/
def bisectionSolveI (f : ℚ → ℚ) (lo hi : ℚ) (maxIter : ℕ) : ℚ :=
  let br : BisectBracket := ⟨lo, f lo, hi, f hi⟩
  let br := if br.fLo * br.fHi > 0 then adjustBracketI f probeTestsI br else br
  bisectLoop f maxIter br

/-- Probe phase of bisectionIRR: like adjustBracketI but with no in-bracket
guard on the candidates. -/
def adjustBracketIRR (f : ℚ → ℚ) : List ℚ → BisectBracket → BisectBracket
  | [], br => br
  | t :: rest, br =>
    if f t * br.fLo < 0 then ⟨br.lo, br.fLo, t, f t⟩
    else if f t * br.fHi < 0 then ⟨t, f t, br.hi, br.fHi⟩
    else adjustBracketIRR f rest br

/-- Probe candidates of bisectionIRR: {-0.5, 0, 0.01, 0.1, 0.5, 1} (the
source list stops at 1, without the 1.5 candidate of bisectionSolveI). -/
def probeTestsIRR : List ℚ :=
  [-(1 / 2), 0, 1 / 100, 1 / 10, 1 / 2, 1]

/-- bisectionIRR from the source: identical bisection loop to bisectionSolveI,
but probing the shorter candidate list with no in-bracket guard. -/
def bisectionIRR (f : ℚ → ℚ) (lo hi : ℚ) (maxIter : ℕ) : ℚ :=
  let br : BisectBracket := ⟨lo, f lo, hi, f hi⟩
  let br := if br.fLo * br.fHi > 0 then adjustBracketIRR f probeTestsIRR br else br
  bisectLoop f maxIter br

/-- Newton-Raphson loop of solveIY from the source, with fuel 50: tracks the
best (lowest-residual) iterate, clamps proposed iterates into (-0.99, 10],
and stops early on a small residual, a flat derivative, or a tiny step. -/
def solveIYLoop (f df : ℚ → ℚ) : ℕ → ℚ → ℚ → ℚ → ℚ
  | 0, _, bestI, _ => bestI
  | fuel + 1, i, bestI, bestF =>
    let fVal := f i
    if |fVal| < 1 / 10 ^ 10 then i
    else
      let best := if |fVal| < bestF then (i, |fVal|) else (bestI, bestF)
      let dfVal := df i
      if |dfVal| < 1 / 10 ^ 15 then best.1
      else
        let newI := i - fVal / dfVal
        let newI := if newI ≤ -(99 / 100) then i / 2 else newI
        let newI := if newI > 10 then (i + 10) / 2 else newI
        if |newI - i| < 1 / 10 ^ 12 then newI
        else solveIYLoop f df fuel newI best.1 best.2

/-- Objective function of solveIY: the TVM residual as a function of the
periodic rate. -/
def solveIYf (n pv pmt fv : ℚ) (isBegin : Bool) (i : ℚ) : ℚ :=
  pv * powI (1 + i) n + pmt * annuityFactor i n isBegin + fv

/-- Derivative used by solveIY's Newton-Raphson, as written in the source
(including the series approximation at near-zero rates). -/
def solveIYdf (n pv pmt : ℚ) (isBegin : Bool) (i : ℚ) : ℚ :=
  if |i| < 1 / 10 ^ 10 then pv * n + pmt * n * (n + 1) / 2
  else
    let onePlusI := 1 + i
    let onePlusIN := powI onePlusI n
    let dFvf := n * powI onePlusI (n - 1)
    let af := (onePlusIN - 1) / i
    let dAf := (n * powI onePlusI (n - 1) * i - (onePlusIN - 1)) / (i * i)
    let dAfBgn := if isBegin then dAf * onePlusI + af else dAf
    pv * dFvf + pmt * dAfBgn

/-- solveIY from the source: Newton-Raphson from a 5% starting rate with an
explicit derivative, falling back to bisectionSolveI over [-0.99, 2] when the
final residual exceeds 1e-6, then converting the periodic rate back to a
nominal annual percentage. -/
def solveIY (n pv pmt fv : ℚ) (isBegin : Bool) (cy py : ℚ) : ℚ :=
  let f := solveIYf n pv pmt fv isBegin
  let df := solveIYdf n pv pmt isBegin
  let i0 : ℚ := 1 / 20
  let bestI := solveIYLoop f df 50 i0 i0 |f i0|
  let bestI := if |f bestI| > 1 / 10 ^ 6 then bisectionSolveI f (-(99 / 100)) 2 100 else bestI
  let nominalRate := if cy = py then bestI * py else cy * (powI (1 + bestI) (py / cy) - 1)
  nominalRate * 100

/-- Summation loop of calculateNPV from the source: npv += CF[t]/(1+r)^t. -/
def npvAux (r : ℚ) : List ℚ → ℕ → ℚ
  | [], _ => 0
  | c :: rest, t => c / (1 + r) ^ t + npvAux r rest (t + 1)

/-- calculateNPV from the source: reject fewer than two cash flows (modelled
as none), otherwise discount at rate/100/PY and sum directly. -/
def calculateNPV (cashFlows : List ℚ) (rate py : ℚ) : Option ℚ :=
  if cashFlows.length < 2 then none
  else some (npvAux (rate / 100 / py) cashFlows 0)

/-- Amortization loop of calculateAmort from the source: run the balance
recurrence for periods 1..k, accumulating principal and interest only from
period p1 on.  The result triple is (totalPrincipal, totalInterest, balance). -/
def amortLoop (i pv pmt : ℚ) (isBegin : Bool) (p1 : ℕ) : ℕ → ℚ × ℚ × ℚ
  | 0 => (0, 0, pv)
  | k + 1 =>
    let acc := amortLoop i pv pmt isBegin p1 k
    let bal := acc.2.2
    let step : ℚ × ℚ × ℚ :=
      if isBegin then
        let principalPayment := -pmt
        let b1 := bal + principalPayment
        let interestPayment := b1 * i
        (interestPayment, principalPayment, b1 + interestPayment)
      else
        let interestPayment := bal * i
        let principalPayment := -pmt - interestPayment
        (interestPayment, principalPayment, bal + interestPayment + pmt)
    if p1 ≤ k + 1 then (acc.1 + step.2.1, acc.2.1 + step.1, step.2.2)
    else (acc.1, acc.2.1, step.2.2)

/-- calculateAmort from the source, at the level of the already-derived
periodic rate i (the caller passes i = getPeriodicRate(IY, CY, PY)): the
loop runs unconditionally from period 1 through p2. -/
def calculateAmort (i pv pmt : ℚ) (isBegin : Bool) (p1 p2 : ℕ) : ℚ × ℚ × ℚ :=
  amortLoop i pv pmt isBegin p1 p2

/-- Specification-level balance recurrence: the balance after k periods,
written as a recurrence rather than a loop. -/
def amortBalance (i pv pmt : ℚ) (isBegin : Bool) : ℕ → ℚ
  | 0 => pv
  | k + 1 =>
    let bal := amortBalance i pv pmt isBegin k
    if isBegin then (bal - pmt) * (1 + i)
    else bal * (1 + i) + pmt

/-- Specification-level interest of period p (1-indexed): in end mode the
interest accrues on the balance entering the period; in begin mode on the
balance after the payment is applied. -/
def periodInterest (i pv pmt : ℚ) (isBegin : Bool) (p : ℕ) : ℚ :=
  if isBegin then (amortBalance i pv pmt isBegin (p - 1) - pmt) * i
  else amortBalance i pv pmt isBegin (p - 1) * i

/-- Specification-level principal of period p (1-indexed): -PMT in begin
mode, -PMT minus the period's interest in end mode. -/
def periodPrincipal (i pv pmt : ℚ) (isBegin : Bool) (p : ℕ) : ℚ :=
  if isBegin then -pmt else -pmt - periodInterest i pv pmt isBegin p

/-- setAmortPeriod from the source: floor the entered value, accept it as the
single-period range P1 = P2 = value only when it lies in [1, floor(N)], and
reject it (modelled as none) otherwise. -/
def setAmortPeriod (entryValue n : ℚ) : Option (ℤ × ℤ) :=
  let value := ⌊entryValue⌋
  let maxN := ⌊n⌋
  if 1 ≤ value ∧ value ≤ maxN then some (value, value) else none

/-- TVM register names of the compute dispatcher. -/
inductive TVMVar
  | N
  | IY
  | PV
  | PMT
  | FV
deriving DecidableEq

/-- Register state read by compute: the five optional TVM registers plus the
compounding configuration and the begin/end timing flag. -/
structure TVMState where
  N : Option ℚ
  IY : Option ℚ
  PV : Option ℚ
  PMT : Option ℚ
  FV : Option ℚ
  CY : ℚ
  PY : ℚ
  BGN : Bool

/-- Register lookup by name. -/
def TVMState.reg (s : TVMState) : TVMVar → Option ℚ
  | .N => s.N
  | .IY => s.IY
  | .PV => s.PV
  | .PMT => s.PMT
  | .FV => s.FV

/-- blankVars of compute from the source: the registers that are currently
null, in the fixed order N, I/Y, PV, PMT, FV. -/
def blankVars (s : TVMState) : List TVMVar :=
  [TVMVar.N, TVMVar.IY, TVMVar.PV, TVMVar.PMT, TVMVar.FV].filter
    fun v => s.reg v = none

/-- Write a solved value back into the named register. -/
def setReg (s : TVMState) : TVMVar → ℚ → TVMState
  | .N, x => { s with N := some x }
  | .IY, x => { s with IY := some x }
  | .PV, x => { s with PV := some x }
  | .PMT, x => { s with PMT := some x }
  | .FV, x => { s with FV := some x }

/-- Severity of a message shown by compute. -/
inductive MsgKind
  | info
  | error
  | success
deriving DecidableEq

/-- Outcome messages of compute from the source. -/
inductive ComputeMsg
  | allValuesSet
  | setMoreValues
  | noSolutionFound
  | solved (v : TVMVar) (x : ℚ)

/-- Severity with which compute shows each message in the source: the
all-values-set message is informational, the two failures are errors. -/
def ComputeMsg.kind : ComputeMsg → MsgKind
  | .allValuesSet => .info
  | .setMoreValues => .error
  | .noSolutionFound => .error
  | .solved _ _ => .success

/-- Dispatch of compute from the source: solve for the named register from
the other four (read with a default that is never used when exactly that one
register is blank).  A none result models a JS result that is NaN or
non-finite, which compute refuses to store; for the PV branch the division by
(1+i)^N = 0 is the one way the closed form turns non-finite. -/
def computeResult (sNN : ℚ → ℚ → ℚ → ℚ → Bool → Option ℚ) (sLog : ℚ → ℚ → Option ℚ)
    (s : TVMState) : TVMVar → Option ℚ :=
  let n := s.N.getD 0
  let iy := s.IY.getD 0
  let pv := s.PV.getD 0
  let pmt := s.PMT.getD 0
  let fv := s.FV.getD 0
  fun v =>
    match v with
    | .FV => some (solveFV n (getPeriodicRate iy s.CY s.PY) pv pmt s.BGN)
    | .PV =>
      let i := getPeriodicRate iy s.CY s.PY
      if powI (1 + i) n = 0 then none else some (solvePV n i pmt fv s.BGN)
    | .PMT => solvePMT n (getPeriodicRate iy s.CY s.PY) pv fv s.BGN
    | .N => solveN sNN sLog (getPeriodicRate iy s.CY s.PY) pv pmt fv s.BGN
    | .IY => some (solveIY n pv pmt fv s.BGN s.CY s.PY)

/-- Case split of compute on the list of blank registers: none blank is the
informational no-op, exactly one blank solves and stores only a finite
(some) result, more than one blank is the insufficient-constraints error. -/
def computeDispatch (sNN : ℚ → ℚ → ℚ → ℚ → Bool → Option ℚ)
    (sLog : ℚ → ℚ → Option ℚ) (s : TVMState) : List TVMVar → TVMState × ComputeMsg
  | [] => (s, ComputeMsg.allValuesSet)
  | [v] =>
    match computeResult sNN sLog s v with
    | none => (s, ComputeMsg.noSolutionFound)
    | some x => (setReg s v x, ComputeMsg.solved v x)
  | _ :: _ :: _ => (s, ComputeMsg.setMoreValues)

/-- compute from the source: dispatch on which registers are blank. -/
def compute (sNN : ℚ → ℚ → ℚ → ℚ → Bool → Option ℚ) (sLog : ℚ → ℚ → Option ℚ)
    (s : TVMState) : TVMState × ComputeMsg :=
  computeDispatch sNN sLog s (blankVars s)

/-- Step objective separating the two bisection fallbacks: it is 1 at both
default-bracket endpoints and at every probe candidate except 1.5 (where it
is -1), and 0 at the first midpoints each loop then reaches, so the two
routines stop at different points after the probe phases diverge. -/
def probeGapObjective (x : ℚ) : ℚ :=
  if x = 51 / 200 then 0
  else if x = 501 / 400 then 0
  else if x = 3 / 2 then -1
  else 1

/-- Identity objective, used to exercise the sign-changing default bracket. -/
def idObjective : ℚ → ℚ := fun x => x

/-- Stub for the abstracted solveNNumeric parameter of solveN. -/
def constNoneN : ℚ → ℚ → ℚ → ℚ → Bool → Option ℚ := fun _ _ _ _ _ => none

/-- Stub for the abstracted logarithmic-branch parameter of solveN. -/
def constNoneLog : ℚ → ℚ → Option ℚ := fun _ _ => none

/-- Register state with every TVM register populated. -/
def tvmAllSet : TVMState := ⟨some 1, some 1, some 1, some 1, some 1, 1, 1, false⟩

/-- Register state with two blank TVM registers. -/
def tvmTwoBlank : TVMState := ⟨none, none, some 1, some 1, some 1, 1, 1, false⟩

/-- Register state whose only blank register is PMT, with N = 0 so that the
PMT solve hits the degenerate zero-period annuity factor. -/
def tvmPmtBlank : TVMState := ⟨some 0, some 100, some 1, none, some 1, 1, 1, false⟩

/-- Register state whose only blank register is FV. -/
def tvmFvBlank : TVMState := ⟨some 1, some 100, some 1, some 0, none, 1, 1, false⟩

theorem npvAux_eq (r : ℚ) : ∀ (cfs : List ℚ) (k : ℕ),
    npvAux r cfs k = ∑ t in Finset.range cfs.length, cfs.getD t 0 / (1 + r) ^ (k + t)
  | [], k => by simp [npvAux]
  | c :: rest, k => by
    rw [npvAux, npvAux_eq r rest (k + 1)]
    rw [List.length_cons, Finset.sum_range_succ']
    simp only [List.getD_cons_succ, List.getD_cons_zero, add_zero]
    rw [add_comm]
    congr 1
    refine Finset.sum_congr rfl fun t _ => ?_
    have h : k + 1 + t = k + (t + 1) := by omega
    rw [h]

/-- C4: calculateNPV sums CF[t]/(1+rate/100/PY)^t directly over the whole
cash-flow list, rejects lists with fewer than two entries, and at zero
discount rate the NPV of a two-entry list is the plain sum. -/
theorem calculateNPV_direct_sum :
    (∀ (cfs : List ℚ) (rate py : ℚ), 2 ≤ cfs.length →
      calculateNPV cfs rate py =
        some (∑ t in Finset.range cfs.length, cfs.getD t 0 / (1 + rate / 100 / py) ^ t)) ∧
    (∀ (cfs : List ℚ) (rate py : ℚ), cfs.length < 2 → calculateNPV cfs rate py = none) ∧
    (∀ c0 c1 py : ℚ, calculateNPV [c0, c1] 0 py = some (c0 + c1)) := by
  refine ⟨fun cfs rate py h => ?_, fun cfs rate py h => ?_, fun c0 c1 py => ?_⟩
  · rw [calculateNPV, if_neg (by omega), npvAux_eq]
    simp
  · rw [calculateNPV, if_pos h]
  · rw [calculateNPV]
    norm_num [npvAux]

theorem calculateNPV_direct_sum_witness :
    (2 ≤ ([1, 2] : List ℚ).length ∧
      calculateNPV [1, 2] 5 1 =
        some (∑ t in Finset.range ([1, 2] : List ℚ).length,
          ([1, 2] : List ℚ).getD t 0 / (1 + 5 / 100 / 1) ^ t)) ∧
    (([3] : List ℚ).length < 2 ∧ calculateNPV [3] 5 1 = none) ∧
    calculateNPV [4, 6] 0 12 = some (4 + 6) :=
  ⟨⟨by simp, calculateNPV_direct_sum.1 [1, 2] 5 1 (by simp)⟩,
   ⟨by simp, calculateNPV_direct_sum.2.1 [3] 5 1 (by simp)⟩,
   calculateNPV_direct_sum.2.2 4 6 12⟩

/-- C10: with PMT = 0 the begin/end timing flag has no effect on the
closed-form solveFV and solvePV, for any rate with 1 + i different from 0,
because the timing adjustment only scales the annuity-factor term and that
term is weighted by PMT. -/
theorem pmt_zero_timing_invariant (n i pv fv : ℚ) (h : 1 + i ≠ 0) :
    solveFV n i pv 0 true = solveFV n i pv 0 false ∧
    solvePV n i 0 fv true = solvePV n i 0 fv false := by
  constructor <;> simp [solveFV, solvePV]

theorem pmt_zero_timing_invariant_witness :
    (1 + (1 : ℚ) ≠ 0) ∧
    (solveFV 2 1 3 0 true = solveFV 2 1 3 0 false ∧
      solvePV 2 1 0 5 true = solvePV 2 1 0 5 false) :=
  ⟨by norm_num, pmt_zero_timing_invariant 2 1 3 5 (by norm_num)⟩

theorem powI_natCast (b : ℚ) (n : ℕ) : powI b (n : ℚ) = b ^ n := by
  rw [powI, if_pos (Rat.den_natCast n), Rat.num_natCast, zpow_natCast]

theorem amortLoop_eq (i pv pmt : ℚ) (b : Bool) (p1 : ℕ) : ∀ k,
    amortLoop i pv pmt b p1 k =
      (∑ p in (Finset.Icc 1 k).filter (fun p => p1 ≤ p), periodPrincipal i pv pmt b p,
       ∑ p in (Finset.Icc 1 k).filter (fun p => p1 ≤ p), periodInterest i pv pmt b p,
       amortBalance i pv pmt b k)
  | 0 => by simp [amortLoop, amortBalance]
  | k + 1 => by
    have hP : ∑ p in (Finset.Icc 1 (k + 1)).filter (fun p => p1 ≤ p),
          periodPrincipal i pv pmt b p
        = (∑ p in (Finset.Icc 1 k).filter (fun p => p1 ≤ p), periodPrincipal i pv pmt b p)
          + (if p1 ≤ k + 1 then periodPrincipal i pv pmt b (k + 1) else 0) := by
      rw [Finset.sum_filter, Finset.sum_Icc_succ_top (by omega), ← Finset.sum_filter]
    have hI : ∑ p in (Finset.Icc 1 (k + 1)).filter (fun p => p1 ≤ p),
          periodInterest i pv pmt b p
        = (∑ p in (Finset.Icc 1 k).filter (fun p => p1 ≤ p), periodInterest i pv pmt b p)
          + (if p1 ≤ k + 1 then periodInterest i pv pmt b (k + 1) else 0) := by
      rw [Finset.sum_filter, Finset.sum_Icc_succ_top (by omega), ← Finset.sum_filter]
    rw [amortLoop, amortLoop_eq i pv pmt b p1 k, hP, hI]
    by_cases hp : p1 ≤ k + 1
    · cases b <;>
        simp only [if_pos hp, amortBalance, periodPrincipal, periodInterest,
          Nat.add_sub_cancel, Bool.false_eq_true, if_false, if_true, Prod.mk.injEq] <;>
        refine ⟨by ring, by ring, by ring⟩
    · cases b <;>
        simp only [if_neg hp, amortBalance, periodPrincipal, periodInterest,
          Nat.add_sub_cancel, Bool.false_eq_true, if_false, if_true, Prod.mk.injEq] <;>
        refine ⟨by ring, by ring, by ring⟩

/-- C2: for every TVM state and range 1 ≤ P1 ≤ P2 ≤ N, calculateAmort runs
the balance recurrence unconditionally from period 1 through P2 starting at
PV, with the end-mode split interest = balance*i, principal = -PMT-interest
and the begin-mode split principal = -PMT applied before interest accrues,
accumulates principal and interest exactly over periods P1..P2, and reports
the balance after all periods 1..P2. -/
theorem calculateAmort_range_totals (n i pv pmt : ℚ) (b : Bool) (p1 p2 : ℕ)
    (h1 : 1 ≤ p1) (h2 : p1 ≤ p2) (h3 : (p2 : ℚ) ≤ n) :
    calculateAmort i pv pmt b p1 p2 =
      (∑ p in Finset.Icc p1 p2, periodPrincipal i pv pmt b p,
       ∑ p in Finset.Icc p1 p2, periodInterest i pv pmt b p,
       amortBalance i pv pmt b p2) := by
  rw [calculateAmort, amortLoop_eq]
  have hf : (Finset.Icc 1 p2).filter (fun p => p1 ≤ p) = Finset.Icc p1 p2 := by
    ext p
    simp only [Finset.mem_filter, Finset.mem_Icc]
    omega
  rw [hf]

theorem calculateAmort_range_totals_witness :
    ((1 : ℕ) ≤ 2 ∧ (2 : ℕ) ≤ 3 ∧ ((3 : ℕ) : ℚ) ≤ 5) ∧
    calculateAmort 0 100 (-10) false 2 3 =
      (∑ p in Finset.Icc 2 3, periodPrincipal 0 100 (-10) false p,
       ∑ p in Finset.Icc 2 3, periodInterest 0 100 (-10) false p,
       amortBalance 0 100 (-10) false 3) :=
  ⟨⟨by norm_num, by norm_num, by norm_num⟩,
   calculateAmort_range_totals 5 0 100 (-10) false 2 3 (by norm_num) (by norm_num)
     (by norm_num)⟩

theorem amortBalance_end_eq (i pv pmt : ℚ) : ∀ k,
    amortBalance i pv pmt false k = pv * (1 + i) ^ k + pmt * ∑ j in Finset.range k, (1 + i) ^ j
  | 0 => by simp [amortBalance]
  | k + 1 => by
    simp only [amortBalance, Bool.false_eq_true, if_false]
    rw [amortBalance_end_eq i pv pmt k, geom_sum_succ]
    ring

theorem annuityFactor_eq_geomSum (i : ℚ) (n : ℕ) (hi : i = 0 ∨ 1 / 10 ^ 10 ≤ |i|) :
    annuityFactor i (n : ℚ) false = ∑ j in Finset.range n, (1 + i) ^ j := by
  rcases hi with h0 | hge
  · subst h0
    rw [annuityFactor, if_pos (by norm_num)]
    simp
  · have hi0 : i ≠ 0 := by
      intro h
      rw [h] at hge
      norm_num at hge
    rw [annuityFactor, if_neg (not_lt.2 hge)]
    have hx : (1 : ℚ) + i ≠ 1 := fun h => hi0 (by linarith)
    rw [geom_sum_eq hx, powI_natCast]
    simp only [Bool.false_eq_true, if_false]
    congr 1
    ring

theorem sum_periodPrincipal_end (i pv pmt : ℚ) : ∀ n,
    ∑ p in Finset.Icc 1 n, periodPrincipal i pv pmt false p
      = pv - amortBalance i pv pmt false n
  | 0 => by simp [amortBalance]
  | n + 1 => by
    rw [Finset.sum_Icc_succ_top (by omega), sum_periodPrincipal_end i pv pmt n]
    simp only [amortBalance, periodPrincipal, periodInterest, Nat.add_sub_cancel,
      Bool.false_eq_true, if_false]
    ring

theorem sum_period_total_end (i pv pmt : ℚ) (n : ℕ) :
    ∑ p in Finset.Icc 1 n,
        (periodPrincipal i pv pmt false p + periodInterest i pv pmt false p)
      = -(pmt * n) := by
  have h : ∀ p ∈ Finset.Icc 1 n,
      periodPrincipal i pv pmt false p + periodInterest i pv pmt false p = -pmt := by
    intro p _
    simp only [periodPrincipal, periodInterest, Bool.false_eq_true, if_false]
    ring
  rw [Finset.sum_congr rfl h, Finset.sum_const, Nat.card_Icc]
  simp only [Nat.add_sub_cancel, nsmul_eq_mul]
  ring

/-- C6 counterexample: for the end-mode loan N=1, i=0, PV=100, PMT=-100,
FV=0 (which satisfies the TVM equation exactly) the accumulated principal
over [1, N] is +100 = +PV, not -PV = -100; and for the begin-mode loan N=1,
i=1, PV=1, PMT=-1, FV=0 the principal total is 1 (not -PV = -1) and
interest plus principal total 3, not -PMT*N = 1. -/
theorem amort_conservation_counterexample :
    ((100 : ℚ) * (1 + 0) ^ (1 : ℕ) + (-100) * annuityFactor 0 1 false + 0 = 0 ∧
      (calculateAmort 0 100 (-100) false 1 1).1 = 100 ∧
      ¬ |(calculateAmort 0 100 (-100) false 1 1).1 - (-100 : ℚ)| ≤ 1 / 10 ^ 6) ∧
    ((1 : ℚ) * (1 + 1) ^ (1 : ℕ) + (-1) * annuityFactor 1 1 true + 0 = 0 ∧
      (calculateAmort 1 1 (-1) true 1 1).1 +
        (calculateAmort 1 1 (-1) true 1 1).2.1 = 3 ∧
      (3 : ℚ) ≠ -((-1) * 1) ∧
      ¬ |(calculateAmort 1 1 (-1) true 1 1).1 - (-1 : ℚ)| ≤ 1 / 10 ^ 6) := by
  norm_num [calculateAmort, amortLoop, annuityFactor, powI]

/-- C6 (amended): for an end-mode fully amortizing loan (FV = 0 satisfying
the TVM equation with the matching PMT, and rate either exactly 0 or at
least the 1e-10 zero-rate threshold), the principal accumulated by
calculateAmort over the full range [1, N] equals +PV exactly (the source
accumulates -PMT - interest, which totals +PV, not -PV), and the sum of
accumulated interest and principal equals -PMT*N exactly.  Begin mode obeys
neither identity (see the counterexample). -/
theorem amort_conservation_end_mode (n : ℕ) (i pv pmt : ℚ)
    (hi : i = 0 ∨ 1 / 10 ^ 10 ≤ |i|)
    (heq : pv * (1 + i) ^ n + pmt * annuityFactor i (n : ℚ) false + 0 = 0) :
    (calculateAmort i pv pmt false 1 n).1 = pv ∧
    (calculateAmort i pv pmt false 1 n).1 + (calculateAmort i pv pmt false 1 n).2.1
      = -(pmt * n) := by
  have hbal : amortBalance i pv pmt false n = 0 := by
    rw [amortBalance_end_eq, ← annuityFactor_eq_geomSum i n hi]
    linarith
  have hfilter : (Finset.Icc 1 n).filter (fun p => 1 ≤ p) = Finset.Icc 1 n := by
    ext p
    simp only [Finset.mem_filter, Finset.mem_Icc]
    omega
  have hc : calculateAmort i pv pmt false 1 n =
      (∑ p in Finset.Icc 1 n, periodPrincipal i pv pmt false p,
       ∑ p in Finset.Icc 1 n, periodInterest i pv pmt false p,
       amortBalance i pv pmt false n) := by
    rw [calculateAmort, amortLoop_eq, hfilter]
  rw [hc]
  have h1 : ∑ p in Finset.Icc 1 n, periodPrincipal i pv pmt false p = pv := by
    rw [sum_periodPrincipal_end, hbal, sub_zero]
  refine ⟨h1, ?_⟩
  have h2 := sum_period_total_end i pv pmt n
  rw [Finset.sum_add_distrib] at h2
  simpa [h1] using h2

theorem amort_conservation_end_mode_witness :
    (((1 : ℚ) = 0 ∨ 1 / 10 ^ 10 ≤ |(1 : ℚ)|) ∧
      (3 : ℚ) * (1 + 1) ^ (2 : ℕ) + (-4) * annuityFactor 1 ((2 : ℕ) : ℚ) false + 0 = 0) ∧
    ((calculateAmort 1 3 (-4) false 1 2).1 = 3 ∧
      (calculateAmort 1 3 (-4) false 1 2).1 + (calculateAmort 1 3 (-4) false 1 2).2.1
        = -((-4) * (2 : ℕ))) :=
  ⟨⟨Or.inr (by norm_num), by norm_num [annuityFactor, powI]⟩,
   amort_conservation_end_mode 2 1 3 (-4) (Or.inr (by norm_num))
     (by norm_num [annuityFactor, powI])⟩

/-- C7 counterexample: requesting the amortization range P1 = 5, P2 = 3
(P2 < P1) is not rejected: calculateAmort still runs the recurrence for
periods 1..3 and reports the totals (0, 0) with the period-3 balance. -/
theorem amort_invalid_range_counterexample :
    calculateAmort 0 100 (-10) false 5 3 = (0, 0, 70) := by
  norm_num [calculateAmort, amortLoop]

/-- C7 (amended): calculateAmort itself performs no range validation - for
P2 < P1 it still runs the recurrence through P2 and reports empty totals
with the period-P2 balance; range validation lives only in setAmortPeriod,
which rejects a floored entry outside [1, floor(N)] and otherwise sets the
single-period range P1 = P2 = value. -/
theorem amort_range_validation :
    (∀ (i pv pmt : ℚ) (b : Bool) (p1 p2 : ℕ), p2 < p1 →
      calculateAmort i pv pmt b p1 p2 = (0, 0, amortBalance i pv pmt b p2)) ∧
    (∀ entryValue n : ℚ, (⌊entryValue⌋ < 1 ∨ ⌊n⌋ < ⌊entryValue⌋) →
      setAmortPeriod entryValue n = none) ∧
    (∀ entryValue n : ℚ, 1 ≤ ⌊entryValue⌋ → ⌊entryValue⌋ ≤ ⌊n⌋ →
      setAmortPeriod entryValue n = some (⌊entryValue⌋, ⌊entryValue⌋)) := by
  refine ⟨fun i pv pmt b p1 p2 h => ?_, fun e n h => ?_, fun e n h1 h2 => ?_⟩
  · rw [calculateAmort, amortLoop_eq]
    have hempty : (Finset.Icc 1 p2).filter (fun p => p1 ≤ p) = ∅ := by
      ext p
      simp only [Finset.mem_filter, Finset.mem_Icc, Finset.not_mem_empty, iff_false]
      omega
    rw [hempty]
    simp
  · rw [setAmortPeriod, if_neg]
    rintro ⟨ha, hb⟩
    rcases h with h | h <;> omega
  · rw [setAmortPeriod, if_pos ⟨h1, h2⟩]

theorem amort_range_validation_witness :
    ((3 : ℕ) < 5 ∧
      calculateAmort 0 100 (-10) false 5 3 = (0, 0, amortBalance 0 100 (-10) false 3)) ∧
    (⌊(0 : ℚ)⌋ < 1 ∧ setAmortPeriod 0 10 = none) ∧
    (1 ≤ ⌊(2 : ℚ)⌋ ∧ ⌊(2 : ℚ)⌋ ≤ ⌊(10 : ℚ)⌋ ∧
      setAmortPeriod 2 10 = some (⌊(2 : ℚ)⌋, ⌊(2 : ℚ)⌋)) :=
  ⟨⟨by norm_num, amort_range_validation.1 0 100 (-10) false 5 3 (by norm_num)⟩,
   ⟨by norm_num, amort_range_validation.2.1 0 10 (Or.inl (by norm_num))⟩,
   ⟨by norm_num, by norm_num,
    amort_range_validation.2.2 2 10 (by norm_num) (by norm_num)⟩⟩

theorem annuityFactor_begin_geom (i : ℚ) (n : ℕ) (hge : 1 / 10 ^ 10 ≤ i) :
    annuityFactor i (n : ℚ) true = (∑ j in Finset.range n, (1 + i) ^ j) * (1 + i) := by
  have habs : 1 / 10 ^ 10 ≤ |i| := le_trans hge (le_abs_self i)
  have hi0 : i ≠ 0 := by
    intro h
    rw [h] at hge
    norm_num at hge
  have hx : (1 : ℚ) + i ≠ 1 := fun h => hi0 (by linarith)
  simp only [annuityFactor, if_neg (not_lt.2 habs), powI_natCast, if_true]
  rw [geom_sum_eq hx, add_sub_cancel_left]

theorem annuityFactor_end_geom (i : ℚ) (n : ℕ) (hge : 1 / 10 ^ 10 ≤ i) :
    annuityFactor i (n : ℚ) false = ∑ j in Finset.range n, (1 + i) ^ j :=
  annuityFactor_eq_geomSum i n (Or.inr (le_trans hge (le_abs_self i)))

theorem pow_cross_lt (i1 i2 : ℚ) (h1 : 0 < i1) (h12 : i1 < i2) (n j : ℕ) (hj : j < n) :
    (1 + i2) ^ j * (1 + i1) ^ n < (1 + i1) ^ j * (1 + i2) ^ n := by
  obtain ⟨m, hm, rfl⟩ : ∃ m, 0 < m ∧ n = j + m := ⟨n - j, by omega, by omega⟩
  have h1p : (0 : ℚ) < 1 + i1 := by linarith
  have h2p : (0 : ℚ) < 1 + i2 := by linarith
  rw [pow_add, pow_add]
  have hkey : (1 + i1) ^ m < (1 + i2) ^ m :=
    pow_lt_pow_left₀ (by linarith) (by linarith) (by omega)
  have hpos : (0 : ℚ) < (1 + i1) ^ j * (1 + i2) ^ j :=
    mul_pos (pow_pos h1p j) (pow_pos h2p j)
  calc (1 + i2) ^ j * ((1 + i1) ^ j * (1 + i1) ^ m)
      = (1 + i1) ^ j * (1 + i2) ^ j * (1 + i1) ^ m := by ring
    _ < (1 + i1) ^ j * (1 + i2) ^ j * (1 + i2) ^ m := by
        exact mul_lt_mul_of_pos_left hkey hpos
    _ = (1 + i1) ^ j * ((1 + i2) ^ j * (1 + i2) ^ m) := by ring

theorem pow_cross_le (i1 i2 : ℚ) (h1 : 0 < i1) (h12 : i1 < i2) (n j : ℕ) (hj : j ≤ n) :
    (1 + i2) ^ j * (1 + i1) ^ n ≤ (1 + i1) ^ j * (1 + i2) ^ n := by
  rcases eq_or_lt_of_le hj with rfl | hlt
  · exact le_of_eq (by ring)
  · exact le_of_lt (pow_cross_lt i1 i2 h1 h12 n j hlt)

theorem annuity_cross_lt_end (i1 i2 : ℚ) (h1 : 0 < i1) (h12 : i1 < i2) (n : ℕ)
    (hn : 1 ≤ n) :
    (∑ j in Finset.range n, (1 + i2) ^ j) * (1 + i1) ^ n
      < (∑ j in Finset.range n, (1 + i1) ^ j) * (1 + i2) ^ n := by
  rw [Finset.sum_mul, Finset.sum_mul]
  refine Finset.sum_lt_sum_of_nonempty (Finset.nonempty_range_iff.2 (by omega)) ?_
  intro j hj
  exact pow_cross_lt i1 i2 h1 h12 n j (Finset.mem_range.1 hj)

theorem annuity_cross_lt_begin (i1 i2 : ℚ) (h1 : 0 < i1) (h12 : i1 < i2) (n : ℕ)
    (hn : 2 ≤ n) :
    (∑ j in Finset.range n, (1 + i2) ^ j) * (1 + i2) * (1 + i1) ^ n
      < (∑ j in Finset.range n, (1 + i1) ^ j) * (1 + i1) * (1 + i2) ^ n := by
  have hrw : ∀ x : ℚ, (∑ j in Finset.range n, (1 + x) ^ j) * (1 + x)
      = ∑ j in Finset.range n, (1 + x) ^ (j + 1) := by
    intro x
    rw [Finset.sum_mul]
    refine Finset.sum_congr rfl fun j _ => ?_
    rw [pow_succ]
  rw [hrw, hrw, Finset.sum_mul, Finset.sum_mul]
  refine Finset.sum_lt_sum (fun j hj => ?_) ⟨0, Finset.mem_range.2 (by omega), ?_⟩
  · exact pow_cross_le i1 i2 h1 h12 n (j + 1)
      (by have := Finset.mem_range.1 hj; omega)
  · exact pow_cross_lt i1 i2 h1 h12 n 1 (by omega)

/-- C8 counterexample: fixing N, PMT, FV, timing and taking rates
0 < i1 < i2 does not make the solved PV strictly decreasing.  With PMT = 1,
FV = 0 the PV strictly increases (i1 = 1, i2 = 2); and even with PMT = -1,
FV = 0 it increases when i1 = 9e-11 falls in the zero-rate branch of
annuityFactor while i2 = 1e-10 does not. -/
theorem solvePV_monotonicity_counterexample :
    ¬ (solvePV 1 2 1 0 false < solvePV 1 1 1 0 false) ∧
    ¬ (solvePV 10 (1 / 10 ^ 10) (-1) 0 false
        < solvePV 10 (9 / 10 ^ 11) (-1) 0 false) := by
  have ha : (|9 / 10 ^ 11| : ℚ) < 1 / 10 ^ 10 := by
    rw [abs_of_pos (by norm_num)]
    norm_num
  have hb : ¬ (|1 / 10 ^ 10| : ℚ) < 1 / 10 ^ 10 := by
    rw [abs_of_pos (by norm_num)]
    norm_num
  constructor
  · norm_num [solvePV, annuityFactor, powI]
  · simp only [solvePV, annuityFactor, if_pos ha, if_neg hb]
    norm_num [powI]

/-- C8 (amended): the solved PV is strictly decreasing in the periodic rate
provided PMT < 0, FV ≤ 0, N ≥ 1 (N ≥ 2 in begin mode), and both rates lie
at or above the 1e-10 zero-rate threshold of annuityFactor; the original
claim fails for other sign patterns of PMT, FV and across that threshold. -/
theorem solvePV_strict_anti (n : ℕ) (i1 i2 pmt fv : ℚ) (b : Bool)
    (hn : 1 ≤ n) (hpmt : pmt < 0) (hfv : fv ≤ 0)
    (hi1 : 1 / 10 ^ 10 ≤ i1) (h12 : i1 < i2) (hb : b = true → 2 ≤ n) :
    solvePV (n : ℚ) i2 pmt fv b < solvePV (n : ℚ) i1 pmt fv b := by
  have h1 : (0 : ℚ) < i1 := lt_of_lt_of_le (by norm_num) hi1
  have h2 : (0 : ℚ) < i2 := h1.trans h12
  have h1p : (0 : ℚ) < 1 + i1 := by linarith
  have h2p : (0 : ℚ) < 1 + i2 := by linarith
  have hp1 : (0 : ℚ) < (1 + i1) ^ n := by positivity
  have hp2 : (0 : ℚ) < (1 + i2) ^ n := by positivity
  have hP12 : (1 + i1) ^ n < (1 + i2) ^ n :=
    pow_lt_pow_left₀ (by linarith) (by linarith) (by omega)
  have hkey : annuityFactor i2 (n : ℚ) b * (1 + i1) ^ n
      < annuityFactor i1 (n : ℚ) b * (1 + i2) ^ n := by
    cases b
    · rw [annuityFactor_end_geom i1 n hi1, annuityFactor_end_geom i2 n (le_trans hi1 h12.le)]
      exact annuity_cross_lt_end i1 i2 h1 h12 n hn
    · rw [annuityFactor_begin_geom i1 n hi1,
        annuityFactor_begin_geom i2 n (le_trans hi1 h12.le)]
      exact annuity_cross_lt_begin i1 i2 h1 h12 n (hb rfl)
  rw [solvePV, solvePV, powI_natCast, powI_natCast, div_lt_div_iff₀ hp2 hp1]
  have h3 : pmt * (annuityFactor i1 (n : ℚ) b * (1 + i2) ^ n)
      < pmt * (annuityFactor i2 (n : ℚ) b * (1 + i1) ^ n) :=
    mul_lt_mul_of_neg_left hkey hpmt
  have h4 : fv * (1 + i2) ^ n ≤ fv * (1 + i1) ^ n :=
    mul_le_mul_of_nonpos_left hP12.le hfv
  nlinarith [h3, h4]

theorem solvePV_strict_anti_witness :
    ((1 : ℕ) ≤ 2 ∧ (-1 : ℚ) < 0 ∧ (0 : ℚ) ≤ 0 ∧
      (1 / 10 ^ 10 : ℚ) ≤ 1 / 10 ^ 10 ∧ (1 / 10 ^ 10 : ℚ) < 1 ∧
      (true = true → (2 : ℕ) ≤ 2)) ∧
    solvePV ((2 : ℕ) : ℚ) 1 (-1) 0 true < solvePV ((2 : ℕ) : ℚ) (1 / 10 ^ 10) (-1) 0 true :=
  ⟨⟨by norm_num, by norm_num, le_refl 0, le_refl _, by norm_num, fun _ => le_refl 2⟩,
   solvePV_strict_anti 2 (1 / 10 ^ 10) 1 (-1) 0 true (by norm_num) (by norm_num)
     (le_refl 0) (le_refl _) (by norm_num) (fun _ => le_refl 2)⟩

theorem bisectLoop_mem (f : ℚ → ℚ) : ∀ (fuel : ℕ) (br : BisectBracket),
    br.lo ≤ br.hi → br.lo ≤ bisectLoop f fuel br ∧ bisectLoop f fuel br ≤ br.hi
  | 0, br, h => by
    simp only [bisectLoop]
    constructor <;> linarith
  | fuel + 1, br, h => by
    have hm1 : br.lo ≤ (br.lo + br.hi) / 2 := by linarith
    have hm2 : (br.lo + br.hi) / 2 ≤ br.hi := by linarith
    simp only [bisectLoop]
    split_ifs with h1 h2
    · exact ⟨hm1, hm2⟩
    · have hrec := bisectLoop_mem f fuel
        ⟨br.lo, br.fLo, (br.lo + br.hi) / 2, f ((br.lo + br.hi) / 2)⟩ hm1
      exact ⟨hrec.1, le_trans hrec.2 hm2⟩
    · have hrec := bisectLoop_mem f fuel
        ⟨(br.lo + br.hi) / 2, f ((br.lo + br.hi) / 2), br.hi, br.fHi⟩ hm2
      exact ⟨le_trans hm1 hrec.1, hrec.2⟩

theorem adjustBracketI_mem (f : ℚ → ℚ) : ∀ (ts : List ℚ) (br : BisectBracket),
    br.lo ≤ br.hi →
    br.lo ≤ (adjustBracketI f ts br).lo ∧
      (adjustBracketI f ts br).lo ≤ (adjustBracketI f ts br).hi ∧
      (adjustBracketI f ts br).hi ≤ br.hi
  | [], br, h => by
    simp only [adjustBracketI]
    exact ⟨le_refl _, h, le_refl _⟩
  | t :: rest, br, h => by
    simp only [adjustBracketI]
    split_ifs with h1 h2
    · exact ⟨le_refl _, le_of_lt h1.1, le_of_lt h1.2.1⟩
    · exact ⟨le_of_lt h2.1, le_of_lt h2.2.1, le_refl _⟩
    · exact adjustBracketI_mem f rest br h

theorem adjustBracketIRR_mem (f : ℚ → ℚ) : ∀ (ts : List ℚ) (br : BisectBracket),
    br.lo ≤ br.hi → (∀ t ∈ ts, br.lo < t ∧ t < br.hi) →
    br.lo ≤ (adjustBracketIRR f ts br).lo ∧
      (adjustBracketIRR f ts br).lo ≤ (adjustBracketIRR f ts br).hi ∧
      (adjustBracketIRR f ts br).hi ≤ br.hi
  | [], br, h, _ => by
    simp only [adjustBracketIRR]
    exact ⟨le_refl _, h, le_refl _⟩
  | t :: rest, br, h, hts => by
    have ht := hts t (List.mem_cons_self t rest)
    simp only [adjustBracketIRR]
    split_ifs with h1 h2
    · exact ⟨le_refl _, le_of_lt ht.1, le_of_lt ht.2⟩
    · exact ⟨le_of_lt ht.1, le_of_lt ht.2, le_refl _⟩
    · exact adjustBracketIRR_mem f rest br h
        (fun x hx => hts x (List.mem_cons_of_mem t hx))

/-- C9: called on the default bracket [-0.99, 2], both bisection fallbacks
return a value inside [-0.99, 2] for every objective function and every
iteration budget: the probe phase only moves an endpoint to an interior
candidate and the loop only moves endpoints to midpoints. -/
theorem bisection_fallback_stays_in_bracket (f : ℚ → ℚ) (k : ℕ) :
    (-(99 / 100) ≤ bisectionSolveI f (-(99 / 100)) 2 k ∧
      bisectionSolveI f (-(99 / 100)) 2 k ≤ 2) ∧
    (-(99 / 100) ≤ bisectionIRR f (-(99 / 100)) 2 k ∧
      bisectionIRR f (-(99 / 100)) 2 k ≤ 2) := by
  have base : ∀ br2 : BisectBracket, -(99 / 100 : ℚ) ≤ br2.lo → br2.lo ≤ br2.hi →
      br2.hi ≤ 2 → -(99 / 100 : ℚ) ≤ bisectLoop f k br2 ∧ bisectLoop f k br2 ≤ 2 := by
    intro br2 ha hb hc
    have hmem := bisectLoop_mem f k br2 hb
    exact ⟨le_trans ha hmem.1, le_trans hmem.2 hc⟩
  constructor
  · simp only [bisectionSolveI]
    split_ifs with hp
    · have hadj := adjustBracketI_mem f probeTestsI
        ⟨-(99 / 100), f (-(99 / 100)), 2, f 2⟩ (by norm_num)
      exact base _ hadj.1 hadj.2.1 hadj.2.2
    · exact base _ (le_refl _) (by norm_num) (le_refl _)
  · simp only [bisectionIRR]
    split_ifs with hp
    · have hts : ∀ t ∈ probeTestsIRR,
          (⟨-(99 / 100), f (-(99 / 100)), 2, f 2⟩ : BisectBracket).lo < t ∧
            t < (⟨-(99 / 100), f (-(99 / 100)), 2, f 2⟩ : BisectBracket).hi := by
        intro t ht
        simp only [probeTestsIRR, List.mem_cons, List.not_mem_nil, or_false] at ht
        rcases ht with rfl | rfl | rfl | rfl | rfl | rfl <;> constructor <;> norm_num
      have hadj := adjustBracketIRR_mem f probeTestsIRR
        ⟨-(99 / 100), f (-(99 / 100)), 2, f 2⟩ (by norm_num) hts
      exact base _ hadj.1 hadj.2.1 hadj.2.2
    · exact base _ (le_refl _) (by norm_num) (le_refl _)


theorem bisectLoop_succ_mk (f : ℚ → ℚ) (fuel : ℕ) (lo fLo hi fHi : ℚ) :
    bisectLoop f (fuel + 1) ⟨lo, fLo, hi, fHi⟩ =
      (if |f ((lo + hi) / 2)| < 1 / 10 ^ 10 then (lo + hi) / 2
       else if fLo * f ((lo + hi) / 2) < 0 then
         bisectLoop f fuel ⟨lo, fLo, (lo + hi) / 2, f ((lo + hi) / 2)⟩
       else bisectLoop f fuel ⟨(lo + hi) / 2, f ((lo + hi) / 2), hi, fHi⟩) := rfl

/-- C5 counterexample: the two bisection fallbacks differ on an objective
whose only sign-changing probe candidate is 1.5, which bisectionSolveI
probes but bisectionIRR does not: on the default bracket with 100 iterations
bisectionSolveI stops at 51/200 while bisectionIRR stops at 501/400. -/
theorem bisection_fallbacks_differ_counterexample :
    bisectionSolveI probeGapObjective (-(99 / 100)) 2 100 ≠
      bisectionIRR probeGapObjective (-(99 / 100)) 2 100 := by
  have hf0 : probeGapObjective (51 / 200) = 0 := by
    unfold probeGapObjective
    norm_num
  have hfmid1 : probeGapObjective (101 / 200) = 1 := by
    unfold probeGapObjective
    norm_num
  have hf1 : probeGapObjective (501 / 400) = 0 := by
    unfold probeGapObjective
    norm_num
  have hI : bisectionSolveI probeGapObjective (-(99 / 100)) 2 100 = 51 / 200 := by
    simp only [bisectionSolveI, probeTestsI]
    norm_num [probeGapObjective, adjustBracketI]
    rw [show (100 : ℕ) = 99 + 1 from rfl, bisectLoop_succ_mk]
    rw [show ((-(99 / 100) : ℚ) + 3 / 2) / 2 = 51 / 200 from by norm_num]
    rw [hf0]
    rw [if_pos (by norm_num : |(0 : ℚ)| < 1 / 10 ^ 10)]
  have hIRR : bisectionIRR probeGapObjective (-(99 / 100)) 2 100 = 501 / 400 := by
    simp only [bisectionIRR, probeTestsIRR]
    norm_num [probeGapObjective, adjustBracketIRR]
    rw [show (100 : ℕ) = 99 + 1 from rfl, bisectLoop_succ_mk]
    rw [show ((-(99 / 100) : ℚ) + 2) / 2 = 101 / 200 from by norm_num]
    rw [hfmid1]
    rw [if_neg (by norm_num : ¬ |(1 : ℚ)| < 1 / 10 ^ 10)]
    rw [if_neg (by norm_num : ¬ (1 : ℚ) * 1 < 0)]
    rw [show (99 : ℕ) = 98 + 1 from rfl, bisectLoop_succ_mk]
    rw [show ((101 / 200 : ℚ) + 2) / 2 = 501 / 400 from by norm_num]
    rw [hf1]
    rw [if_pos (by norm_num : |(0 : ℚ)| < 1 / 10 ^ 10)]
  rw [hI, hIRR]
  norm_num

/-- C5 (amended): the two bisection fallbacks share the bracket, iteration
cap, residual tolerance and an identical halving loop, and agree on every
objective whose initial bracket already sign-changes (f(lo)*f(hi) <= 0, so
neither probe phase runs); their probe phases differ - bisectionSolveI
probes {-0.5, 0, 0.01, 0.1, 0.5, 1, 1.5} with an in-bracket guard while
bisectionIRR probes only {-0.5, 0, 0.01, 0.1, 0.5, 1} unguarded - so they
can return different results when probing is needed. -/
theorem bisection_fallbacks_agree_on_sign_change (f : ℚ → ℚ) (lo hi : ℚ) (k : ℕ)
    (h : f lo * f hi ≤ 0) :
    bisectionSolveI f lo hi k = bisectionIRR f lo hi k := by
  simp only [bisectionSolveI, bisectionIRR, if_neg (not_lt.2 h)]

theorem bisection_fallbacks_agree_on_sign_change_witness :
    idObjective (-1) * idObjective 1 ≤ 0 ∧
    bisectionSolveI idObjective (-1) 1 3 = bisectionIRR idObjective (-1) 1 3 :=
  ⟨by norm_num [idObjective],
   bisection_fallbacks_agree_on_sign_change idObjective (-1) 1 3
     (by norm_num [idObjective])⟩

/-- C3: solving for PMT under the 1e-15 annuity-factor guard yields the NaN
result (none); and the compute orchestration is a no-op reported with the
informational (non-error) all-values-set message when no register is blank,
reports the insufficient-constraints error without solving when more than
one register is blank, and on a single blank register refuses to store a
non-finite (none) solver result, storing only some result. -/
theorem compute_orchestration_contract :
    (∀ (n i pv fv : ℚ) (b : Bool), |annuityFactor i n b| < 1 / 10 ^ 15 →
      solvePMT n i pv fv b = none) ∧
    (∀ sNN sLog s, blankVars s = [] →
      compute sNN sLog s = (s, ComputeMsg.allValuesSet) ∧
        ComputeMsg.kind ComputeMsg.allValuesSet ≠ MsgKind.error) ∧
    (∀ sNN sLog s, 2 ≤ (blankVars s).length →
      compute sNN sLog s = (s, ComputeMsg.setMoreValues)) ∧
    (∀ sNN sLog s v, blankVars s = [v] → computeResult sNN sLog s v = none →
      compute sNN sLog s = (s, ComputeMsg.noSolutionFound)) ∧
    (∀ sNN sLog s v x, blankVars s = [v] → computeResult sNN sLog s v = some x →
      compute sNN sLog s = (setReg s v x, ComputeMsg.solved v x)) := by
  refine ⟨fun n i pv fv b h => ?_, fun sNN sLog s h => ?_, fun sNN sLog s h => ?_,
    fun sNN sLog s v h hr => ?_, fun sNN sLog s v x h hr => ?_⟩
  · simp only [solvePMT, if_pos h]
  · refine ⟨?_, by simp [ComputeMsg.kind]⟩
    rw [compute, h]
    rfl
  · rw [compute]
    rcases hl : blankVars s with _ | ⟨a, _ | ⟨c, rest⟩⟩
    · rw [hl] at h
      simp at h
    · rw [hl] at h
      simp at h
    · rfl
  · rw [compute, h, computeDispatch, hr]
  · rw [compute, h, computeDispatch, hr]

theorem compute_orchestration_contract_witness :
    (|annuityFactor 1 0 false| < 1 / 10 ^ 15 ∧ solvePMT 0 1 1 1 false = none) ∧
    (blankVars tvmAllSet = [] ∧
      compute constNoneN constNoneLog tvmAllSet = (tvmAllSet, ComputeMsg.allValuesSet) ∧
        ComputeMsg.kind ComputeMsg.allValuesSet ≠ MsgKind.error) ∧
    (2 ≤ (blankVars tvmTwoBlank).length ∧
      compute constNoneN constNoneLog tvmTwoBlank = (tvmTwoBlank, ComputeMsg.setMoreValues)) ∧
    (blankVars tvmPmtBlank = [TVMVar.PMT] ∧
      computeResult constNoneN constNoneLog tvmPmtBlank TVMVar.PMT = none ∧
      compute constNoneN constNoneLog tvmPmtBlank = (tvmPmtBlank, ComputeMsg.noSolutionFound)) ∧
    (blankVars tvmFvBlank = [TVMVar.FV] ∧
      computeResult constNoneN constNoneLog tvmFvBlank TVMVar.FV = some (-2) ∧
      compute constNoneN constNoneLog tvmFvBlank
        = (setReg tvmFvBlank TVMVar.FV (-2), ComputeMsg.solved TVMVar.FV (-2))) := by
  have hAF : |annuityFactor 1 0 false| < 1 / 10 ^ 15 := by
    norm_num [annuityFactor, powI]
  have h1 : blankVars tvmAllSet = [] := by
    simp [blankVars, TVMState.reg, tvmAllSet]
  have h2 : 2 ≤ (blankVars tvmTwoBlank).length := by
    simp [blankVars, TVMState.reg, tvmTwoBlank]
  have h3 : blankVars tvmPmtBlank = [TVMVar.PMT] := by
    simp [blankVars, TVMState.reg, tvmPmtBlank]
  have h4 : blankVars tvmFvBlank = [TVMVar.FV] := by
    simp [blankVars, TVMState.reg, tvmFvBlank]
  have hr3 : computeResult constNoneN constNoneLog tvmPmtBlank TVMVar.PMT = none := by
    simp only [computeResult, tvmPmtBlank]
    norm_num [solvePMT, annuityFactor, getPeriodicRate, powI]
  have hr4 : computeResult constNoneN constNoneLog tvmFvBlank TVMVar.FV = some (-2) := by
    simp only [computeResult, tvmFvBlank]
    norm_num [solveFV, annuityFactor, getPeriodicRate, powI]
  exact ⟨⟨hAF, compute_orchestration_contract.1 0 1 1 1 false hAF⟩,
    ⟨h1, compute_orchestration_contract.2.1 constNoneN constNoneLog tvmAllSet h1⟩,
    ⟨h2, compute_orchestration_contract.2.2.1 constNoneN constNoneLog tvmTwoBlank h2⟩,
    ⟨h3, hr3, compute_orchestration_contract.2.2.2.1 constNoneN constNoneLog tvmPmtBlank
      TVMVar.PMT h3 hr3⟩,
    ⟨h4, hr4, compute_orchestration_contract.2.2.2.2 constNoneN constNoneLog tvmFvBlank
      TVMVar.FV (-2) h4 hr4⟩⟩

theorem solveIYLoop_succ (f df : ℚ → ℚ) (fuel : ℕ) (i bestI bestF : ℚ) :
    solveIYLoop f df (fuel + 1) i bestI bestF =
      (if |f i| < 1 / 10 ^ 10 then i
       else
         let best := if |f i| < bestF then (i, |f i|) else (bestI, bestF)
         if |df i| < 1 / 10 ^ 15 then best.1
         else
           let newI := i - f i / df i
           let newI := if newI ≤ -(99 / 100) then i / 2 else newI
           let newI := if newI > 10 then (i + 10) / 2 else newI
           if |newI - i| < 1 / 10 ^ 12 then newI
           else solveIYLoop f df fuel newI best.1 best.2) := rfl

/-- C1 counterexample: the register set N = 2, periodic rate 17/10, PV = 1,
PMT = -15/4, FV = 1317/200 in end mode (CY = PY = 1, so nominal I/Y = 170)
satisfies the TVM equation exactly, yet nulling I/Y and solving returns 5:
the quadratic TVM objective also vanishes at the 5% Newton starting guess,
so the solver stops there and the round-trip error is far beyond the 1e-6
relative tolerance. -/
theorem solveIY_roundtrip_counterexample :
    (1 : ℚ) * powI (1 + 17 / 10) 2 + (-15 / 4) * annuityFactor (17 / 10) 2 false
        + 1317 / 200 = 0 ∧
    getPeriodicRate 170 1 1 = 17 / 10 ∧
    solveIY 2 1 (-15 / 4) (1317 / 200) false 1 1 = 5 ∧
    ¬ |solveIY 2 1 (-15 / 4) (1317 / 200) false 1 1 - 170| ≤ 1 / 10 ^ 6 * |(170 : ℚ)| := by
  have hcond : ¬ |(17 / 10 : ℚ)| < 1 / 10 ^ 10 := by
    rw [abs_of_pos (by norm_num)]
    norm_num
  have hAF : annuityFactor (17 / 10) 2 false = 37 / 10 := by
    simp only [annuityFactor, if_neg hcond]
    norm_num [powI]
  have hcond2 : ¬ |(1 / 20 : ℚ)| < 1 / 10 ^ 10 := by
    rw [abs_of_pos (by norm_num)]
    norm_num
  have hAF2 : annuityFactor (1 / 20) 2 false = 41 / 20 := by
    simp only [annuityFactor, if_neg hcond2]
    norm_num [powI]
  have hf0 : solveIYf 2 1 (-15 / 4) (1317 / 200) false (1 / 20) = 0 := by
    rw [solveIYf, hAF2]
    norm_num [powI]
  have hloop : solveIYLoop (solveIYf 2 1 (-15 / 4) (1317 / 200) false)
      (solveIYdf 2 1 (-15 / 4) false) 50 (1 / 20) (1 / 20)
      |solveIYf 2 1 (-15 / 4) (1317 / 200) false (1 / 20)| = 1 / 20 := by
    rw [show (50 : ℕ) = 49 + 1 from rfl, solveIYLoop_succ, hf0]
    rw [if_pos (by norm_num : |(0 : ℚ)| < 1 / 10 ^ 10)]
  have hsolve : solveIY 2 1 (-15 / 4) (1317 / 200) false 1 1 = 5 := by
    simp only [solveIY]
    rw [hloop, hf0]
    rw [if_neg (by norm_num : ¬ |(0 : ℚ)| > 1 / 10 ^ 6)]
    norm_num
  refine ⟨?_, ?_, hsolve, ?_⟩
  · rw [hAF]
    norm_num [powI]
  · rw [getPeriodicRate]
    norm_num
  · rw [hsolve,
      show |(5 : ℚ) - 170| = 165 from by rw [abs_of_nonpos (by norm_num)]; norm_num,
      show |(170 : ℚ)| = 170 from abs_of_nonneg (by norm_num)]
    norm_num

/-- C1 (amended): on a register set satisfying the TVM equation the
closed-form solvers recover their register exactly (hence within any
tolerance): solveFV always, solvePV whenever (1+i)^N is nonzero, solvePMT
whenever the annuity factor clears its 1e-15 guard, and solveN in its
zero-rate closed form (i = 0 with |PMT| at least 1e-15).  The iterative I/Y
solver does not satisfy the round-trip in general (see the counterexample),
so the claim is restricted to the closed-form registers. -/
theorem tvm_roundtrip_closed_form (n : ℕ) (i pv pmt fv : ℚ) (b : Bool)
    (heq : pv * (1 + i) ^ n + pmt * annuityFactor i (n : ℚ) b + fv = 0) :
    solveFV (n : ℚ) i pv pmt b = fv ∧
    ((1 + i) ^ n ≠ 0 → solvePV (n : ℚ) i pmt fv b = pv) ∧
    (1 / 10 ^ 15 ≤ |annuityFactor i (n : ℚ) b| →
      solvePMT (n : ℚ) i pv fv b = some pmt) ∧
    (∀ (sNN : ℚ → ℚ → ℚ → ℚ → Bool → Option ℚ) (sLog : ℚ → ℚ → Option ℚ),
      i = 0 → 1 / 10 ^ 15 ≤ |pmt| →
      solveN sNN sLog i pv pmt fv b = some ((n : ℕ) : ℚ)) := by
  refine ⟨?_, fun hP => ?_, fun hA => ?_, fun sNN sLog hi hpmt => ?_⟩
  · rw [solveFV, powI_natCast]
    linarith
  · rw [solvePV, powI_natCast, div_eq_iff hP]
    linarith
  · have hA0 : annuityFactor i (n : ℚ) b ≠ 0 := by
      intro h0
      rw [h0, abs_zero] at hA
      norm_num at hA
    simp only [solvePMT, if_neg (not_lt.2 hA), powI_natCast, Option.some.injEq]
    rw [div_eq_iff hA0]
    linarith
  · have hpmt0 : pmt ≠ 0 := by
      intro h0
      rw [h0, abs_zero] at hpmt
      norm_num at hpmt
    subst hi
    have hAF0 : annuityFactor 0 (n : ℚ) b = (n : ℚ) := by
      simp only [annuityFactor]
      rw [if_pos (by norm_num : |(0 : ℚ)| < 1 / 10 ^ 10)]
    rw [hAF0] at heq
    simp only [solveN]
    rw [if_pos (by norm_num : |(0 : ℚ)| < 1 / 10 ^ 10),
      if_neg (not_lt.2 hpmt), Option.some.injEq, div_eq_iff hpmt0]
    have hpow : ((1 : ℚ) + 0) ^ n = 1 := by norm_num
    rw [hpow] at heq
    linarith

theorem tvm_roundtrip_closed_form_witness :
    ((1 : ℚ) * (1 + 0) ^ (2 : ℕ) + 3 * annuityFactor 0 ((2 : ℕ) : ℚ) false
        + (-7) = 0) ∧
    solveFV ((2 : ℕ) : ℚ) 0 1 3 false = -7 ∧
    (((1 : ℚ) + 0) ^ (2 : ℕ) ≠ 0 ∧ solvePV ((2 : ℕ) : ℚ) 0 3 (-7) false = 1) ∧
    ((1 / 10 ^ 15 : ℚ) ≤ |annuityFactor 0 ((2 : ℕ) : ℚ) false| ∧
      solvePMT ((2 : ℕ) : ℚ) 0 1 (-7) false = some 3) ∧
    ((0 : ℚ) = 0 ∧ (1 / 10 ^ 15 : ℚ) ≤ |(3 : ℚ)| ∧
      solveN constNoneN constNoneLog 0 1 3 (-7) false = some ((2 : ℕ) : ℚ)) := by
  have heq : (1 : ℚ) * (1 + 0) ^ (2 : ℕ) + 3 * annuityFactor 0 ((2 : ℕ) : ℚ) false
      + (-7) = 0 := by
    norm_num [annuityFactor]
  have h := tvm_roundtrip_closed_form 2 0 1 3 (-7) false heq
  refine ⟨heq, h.1, ⟨by norm_num, h.2.1 (by norm_num)⟩, ⟨?_, h.2.2.1 ?_⟩,
    ⟨rfl, by norm_num, h.2.2.2 constNoneN constNoneLog rfl (by norm_num)⟩⟩ <;>
    norm_num [annuityFactor]
